import Mathlib

/-!
Shallow embedding of the keyword-based dialect classifier of
`src/components/DialectClassifier.tsx` (functions `classifyArabicByKeywords`
and `classifyEnglishByKeywords`).  Texts are modelled as `List Char`;
JavaScript `String.prototype.includes` becomes a character-level substring
test; JavaScript number arithmetic on the score constants (all small decimal
fractions) is modelled exactly over `ℚ`; `Array.prototype.sort` with the
comparator `(a, b) => b.confidence - a.confidence` is the stable descending
insertion sort `List.insertionSort confGE`.
-/

/-- Output record of the classifier, mirroring the `ClassificationResult`
interface of the source. -/
structure ClassificationResult where
  dialect : String
  confidence : ℚ
  description : String
deriving Repr, DecidableEq

/-- Tests whether `pat` occurs at the head of `text`. -/
def charsStartWith : List Char → List Char → Bool
  | [], _ => true
  | _ :: _, [] => false
  | p :: ps, c :: cs => p == c && charsStartWith ps cs

/-- Character-level model of JavaScript `text.includes(pat)`: `pat` occurs
as a contiguous substring of `text`. -/
def charsContain : List Char → List Char → Bool
  | [], pat => charsStartWith pat []
  | c :: cs, pat => charsStartWith pat (c :: cs) || charsContain cs pat

/-- Character-level model of JavaScript `String.prototype.toLowerCase`. -/
def toLowerList (l : List Char) : List Char := l.map Char.toLower

/-- Descending comparison on confidence: the order into which the source
sorts result lists (`sort((a, b) => b.confidence - a.confidence)`). -/
def confGE (a b : ClassificationResult) : Prop := b.confidence ≤ a.confidence

instance : DecidableRel confGE :=
  fun a b => inferInstanceAs (Decidable (b.confidence ≤ a.confidence))

instance : IsTotal ClassificationResult confGE :=
  ⟨fun a b => le_total b.confidence a.confidence⟩

instance : IsTrans ClassificationResult confGE :=
  ⟨fun _ _ _ hab hbc => le_trans hbc hab⟩

/-! ### Arabic pipeline -/

/-- Marker list `keywords.egyptian` of `classifyArabicByKeywords`. -/
def egyptianWords : List (List Char) :=
  ["إيه".toList, "إزيك".toList, "إزايك".toList, "يلا".toList, "كدة".toList,
   "أصل".toList, "علشان".toList]

/-- Marker list `keywords.levantine` of `classifyArabicByKeywords`. -/
def levantineWords : List (List Char) :=
  ["شو".toList, "كيفك".toList, "بدي".toList, "هيك".toList, "مشان".toList,
   "عم".toList]

/-- Marker list `keywords.gulf` of `classifyArabicByKeywords`. -/
def gulfWords : List (List Char) :=
  ["شلونك".toList, "وش".toList, "ليش".toList, "عاد".toList, "زين".toList,
   "أبي".toList]

/-- Marker list `keywords.maghrebi` of `classifyArabicByKeywords`. -/
def maghrebiWords : List (List Char) :=
  ["كيفاش".toList, "شحال".toList, "بغيت".toList, "درت".toList, "مزيان".toList]

/-- The `keywords` object of `classifyArabicByKeywords`, in the key-insertion
order that `Object.entries` enumerates. -/
def arabicKeywords : List (String × List (List Char)) :=
  [("egyptian", egyptianWords), ("levantine", levantineWords),
   ("gulf", gulfWords), ("maghrebi", maghrebiWords)]

/-- The `dialectMappings` object of `classifyArabicByKeywords`:
identifier, display name, description. -/
def arabicInfoTable : List (String × String × String) :=
  [("egyptian", "Egyptian Arabic",
    "Common in Egypt and widely understood across the Arab world"),
   ("levantine", "Levantine Arabic",
    "Used in Syria, Lebanon, Jordan, and Palestine"),
   ("gulf", "Gulf Arabic",
    "Spoken in the Arabian Peninsula and Gulf states"),
   ("maghrebi", "Maghrebi Arabic",
    "Spoken in North African countries")]

/-- Models `dialectMappings[dialect]?.name || dialect`. -/
def arabicName (d : String) : String :=
  (((arabicInfoTable.find? (fun p => p.1 == d)).map (fun p => p.2.1)).getD d)

/-- Models `dialectMappings[dialect]?.description || "Detected based on keyword analysis"`. -/
def arabicDescription (d : String) : String :=
  (((arabicInfoTable.find? (fun p => p.1 == d)).map (fun p => p.2.2)).getD
    "Detected based on keyword analysis")

/-- The accumulation loop of `classifyArabicByKeywords`: starting from 0,
add 0.3 for each marker word contained in the text. -/
def arabicScore (text : List Char) (words : List (List Char)) : ℚ :=
  words.foldl (fun s w => if charsContain text w then s + 3/10 else s) 0

/-- The `Object.entries(scores).filter(score > 0).map(...)` chain of
`classifyArabicByKeywords`, before sorting: one candidate per dialect with a
positive accumulated score, confidence clamped by `Math.min(score, 0.9)`. -/
def arabicCandidates (text : List Char) : List ClassificationResult :=
  ((arabicKeywords.map (fun p => (p.1, arabicScore text p.2))).filter
      (fun p => decide ((0 : ℚ) < p.2))).map
    (fun p => ⟨arabicName p.1, min p.2 (9/10), arabicDescription p.1⟩)

/-- The synthetic fallback result returned by `classifyArabicByKeywords`
when no dialect scored positively. -/
def msaFallback : ClassificationResult :=
  ⟨"Modern Standard Arabic", 1/2, "Default classification - formal Arabic"⟩

/-- The full Arabic keyword classifier: sort candidates by descending
confidence (stable), and substitute the Modern Standard Arabic fallback when
the list is empty. -/
def classifyArabicByKeywords (text : List Char) : List ClassificationResult :=
  let results := List.insertionSort confGE (arabicCandidates text)
  if results.isEmpty then [msaFallback] else results

/-! ### English pipeline -/

/-- Marker list `keywords.american` of `classifyEnglishByKeywords`. -/
def americanWords : List (List Char) :=
  ["color".toList, "theater".toList, "center".toList, "aluminum".toList,
   "mom".toList, "gas".toList, "truck".toList, "elevator".toList]

/-- Marker list `keywords.british` of `classifyEnglishByKeywords`. -/
def britishWords : List (List Char) :=
  ["colour".toList, "theatre".toList, "centre".toList, "aluminium".toList,
   "mum".toList, "petrol".toList, "lorry".toList, "lift".toList]

/-- Marker list `keywords.australian` of `classifyEnglishByKeywords`. -/
def australianWords : List (List Char) :=
  ["mate".toList, "bloke".toList, "arvo".toList, "brekkie".toList,
   "mozzie".toList, "barbie".toList, "ute".toList]

/-- Marker list `keywords.canadian` of `classifyEnglishByKeywords`. -/
def canadianWords : List (List Char) :=
  ["eh".toList, "toque".toList, "loonie".toList, "double-double".toList,
   "chesterfield".toList]

/-- The accumulation loop of `classifyEnglishByKeywords`: starting from the
dialect's baseline, add 0.4 for each marker whose lowercased form is
contained in the lowercased text. -/
def englishScore (lower : List Char) (words : List (List Char)) (base : ℚ) : ℚ :=
  words.foldl (fun s w => if charsContain lower (toLowerList w) then s + 2/5 else s) base

/-- The `american` accumulator: baseline 0.3 plus 0.4 per match. -/
def americanScore (text : List Char) : ℚ :=
  englishScore (toLowerList text) americanWords (3/10)

/-- The `british` accumulator: baseline 0 plus 0.4 per match. -/
def britishScore (text : List Char) : ℚ :=
  englishScore (toLowerList text) britishWords 0

/-- The `australian` accumulator: baseline 0 plus 0.4 per match. -/
def australianScore (text : List Char) : ℚ :=
  englishScore (toLowerList text) australianWords 0

/-- The `canadian` accumulator: baseline 0 plus 0.4 per match. -/
def canadianScore (text : List Char) : ℚ :=
  englishScore (toLowerList text) canadianWords 0

/-- Models `scores.british || 0.2` (the score is never negative, so the
JavaScript falsy test is exactly a test for 0). -/
def britishConf (text : List Char) : ℚ :=
  if britishScore text = 0 then 1/5 else britishScore text

/-- Models `scores.australian || 0.1`. -/
def australianConf (text : List Char) : ℚ :=
  if australianScore text = 0 then 1/10 else australianScore text

/-- Models `scores.canadian || 0.1`. -/
def canadianConf (text : List Char) : ℚ :=
  if canadianScore text = 0 then 1/10 else canadianScore text

/-- The fixed four-entry result array of `classifyEnglishByKeywords` before
filtering, in source order. -/
def englishCandidates (text : List Char) : List ClassificationResult :=
  [⟨"American English", americanScore text,
    "Standard American pronunciation and vocabulary"⟩,
   ⟨"British English", britishConf text,
    "Received Pronunciation and British vocabulary"⟩,
   ⟨"Australian English", australianConf text,
    "Distinctive Australian accent and expressions"⟩,
   ⟨"Canadian English", canadianConf text,
    "Canadian pronunciation with some British influences"⟩]

/-- The full English keyword classifier:
`.filter(confidence > 0.05).sort(descending).slice(0, 3)`. -/
def classifyEnglishByKeywords (text : List Char) : List ClassificationResult :=
  (List.insertionSort confGE
    ((englishCandidates text).filter
      (fun r => decide ((1/20 : ℚ) < r.confidence)))).take 3

/-- All Arabic dictionary markers, in dictionary order. -/
def allArabicWords : List (List Char) :=
  egyptianWords ++ levantineWords ++ gulfWords ++ maghrebiWords

/-- All English dictionary markers, in dictionary order. -/
def allEnglishWords : List (List Char) :=
  americanWords ++ britishWords ++ australianWords ++ canadianWords

/-! ### Score arithmetic -/

/-- Accumulating a fixed weight per matching word is the base plus the weight
times the number of matching words. -/
lemma foldl_weight_eq (f : List Char → Bool) (q : ℚ) :
    ∀ (ws : List (List Char)) (b : ℚ),
      ws.foldl (fun s w => if f w then s + q else s) b = b + q * (ws.countP f) := by
  intro ws
  induction ws with
  | nil => intro b; simp
  | cons w ws ih =>
    intro b
    rw [List.foldl_cons, ih, List.countP_cons]
    by_cases h : f w
    · simp only [h, if_pos, Nat.cast_add]
      push_cast
      ring
    · simp [h]

lemma englishScore_eq (lower : List Char) (words : List (List Char)) (base : ℚ) :
    englishScore lower words base
      = base + 2/5 * (words.countP (fun w => charsContain lower (toLowerList w))) :=
  foldl_weight_eq _ _ _ _

lemma arabicScore_eq (text : List Char) (words : List (List Char)) :
    arabicScore text words
      = 3/10 * (words.countP (fun w => charsContain text w)) := by
  have h := foldl_weight_eq (fun w => charsContain text w) (3/10) words 0
  simpa [arabicScore] using h

lemma englishScore_lb (lower : List Char) (words : List (List Char)) (base : ℚ) :
    base ≤ englishScore lower words base := by
  rw [englishScore_eq]
  have : (0:ℚ) ≤ 2/5 * (words.countP (fun w => charsContain lower (toLowerList w))) := by
    positivity
  linarith

lemma englishScore_ub (lower : List Char) (words : List (List Char)) (base : ℚ) :
    englishScore lower words base ≤ base + 2/5 * words.length := by
  rw [englishScore_eq]
  have hc : (words.countP (fun w => charsContain lower (toLowerList w)) : ℚ)
      ≤ (words.length : ℚ) := by
    exact_mod_cast List.countP_le_length _
  linarith

lemma englishScore_zero_cases (lower : List Char) (words : List (List Char)) :
    englishScore lower words 0 = 0 ∨ 2/5 ≤ englishScore lower words 0 := by
  rw [englishScore_eq]
  rcases Nat.eq_zero_or_pos (words.countP (fun w => charsContain lower (toLowerList w)))
    with h | h
  · left; rw [h]; norm_num
  · right
    have : (1:ℚ) ≤ (words.countP (fun w => charsContain lower (toLowerList w)) : ℚ) := by
      exact_mod_cast h
    nlinarith

/-! ### Bounds on the four English confidences -/

lemma americanScore_lb (t : List Char) : 3/10 ≤ americanScore t :=
  englishScore_lb _ _ _

lemma americanScore_ub (t : List Char) : americanScore t ≤ 7/2 := by
  have h := englishScore_ub (toLowerList t) americanWords (3/10)
  have hl : (americanWords.length : ℚ) = 8 := by norm_num [americanWords]
  rw [hl] at h
  calc americanScore t ≤ 3/10 + 2/5 * 8 := h
    _ = 7/2 := by norm_num

lemma britishConf_lb (t : List Char) : 1/5 ≤ britishConf t := by
  rw [britishConf]
  split_ifs with h
  · norm_num
  · rcases englishScore_zero_cases (toLowerList t) britishWords with h0 | h0
    · exact absurd h0 h
    · rw [britishScore]; linarith

lemma britishConf_ub (t : List Char) : britishConf t ≤ 7/2 := by
  rw [britishConf]
  split_ifs with h
  · norm_num
  · have hub := englishScore_ub (toLowerList t) britishWords 0
    have hl : (britishWords.length : ℚ) = 8 := by norm_num [britishWords]
    rw [hl] at hub
    rw [britishScore]
    linarith

lemma australianConf_lb (t : List Char) : 1/10 ≤ australianConf t := by
  rw [australianConf]
  split_ifs with h
  · norm_num
  · rcases englishScore_zero_cases (toLowerList t) australianWords with h0 | h0
    · exact absurd h0 h
    · rw [australianScore]; linarith

lemma australianConf_ub (t : List Char) : australianConf t ≤ 7/2 := by
  rw [australianConf]
  split_ifs with h
  · norm_num
  · have hub := englishScore_ub (toLowerList t) australianWords 0
    have hl : (australianWords.length : ℚ) = 7 := by norm_num [australianWords]
    rw [hl] at hub
    rw [australianScore]
    linarith

lemma canadianConf_lb (t : List Char) : 1/10 ≤ canadianConf t := by
  rw [canadianConf]
  split_ifs with h
  · norm_num
  · rcases englishScore_zero_cases (toLowerList t) canadianWords with h0 | h0
    · exact absurd h0 h
    · rw [canadianScore]; linarith

lemma canadianConf_ub (t : List Char) : canadianConf t ≤ 7/2 := by
  rw [canadianConf]
  split_ifs with h
  · norm_num
  · have hub := englishScore_ub (toLowerList t) canadianWords 0
    have hl : (canadianWords.length : ℚ) = 5 := by norm_num [canadianWords]
    rw [hl] at hub
    rw [canadianScore]
    linarith

/-! ### Structure of the Arabic output -/

lemma arabicCandidates_conf {t : List Char} {r : ClassificationResult}
    (h : r ∈ arabicCandidates t) : 0 < r.confidence ∧ r.confidence ≤ 9/10 := by
  rw [arabicCandidates] at h
  rcases List.mem_map.mp h with ⟨p, hp, rfl⟩
  rcases List.mem_filter.mp hp with ⟨_, hpos⟩
  have hpos2 : (0:ℚ) < p.2 := of_decide_eq_true hpos
  constructor
  · exact lt_min hpos2 (by norm_num)
  · exact min_le_right _ _

lemma mem_classifyArabic {t : List Char} {r : ClassificationResult}
    (h : r ∈ classifyArabicByKeywords t) :
    r = msaFallback ∨ r ∈ arabicCandidates t := by
  rw [classifyArabicByKeywords] at h
  split_ifs at h with he
  · left
    simpa using h
  · right
    exact (List.mem_insertionSort confGE).mp h

lemma classifyArabic_ne_nil (t : List Char) :
    0 < (classifyArabicByKeywords t).length := by
  rw [classifyArabicByKeywords]
  split_ifs with he
  · simp
  · rw [List.length_pos]
    intro hnil
    exact he (by simp [hnil])

/-! ### Structure of the English output -/

lemma english_filter_all (t : List Char) :
    (englishCandidates t).filter (fun r => decide ((1/20 : ℚ) < r.confidence))
      = englishCandidates t := by
  rw [List.filter_eq_self]
  intro a ha
  rw [decide_eq_true_eq]
  have h4 := englishCandidates t
  simp only [englishCandidates, List.mem_cons, List.not_mem_nil, or_false] at ha
  rcases ha with rfl | rfl | rfl | rfl
  · have := americanScore_lb t
    simp only []
    linarith
  · have := britishConf_lb t
    simp only []
    linarith
  · have := australianConf_lb t
    simp only []
    linarith
  · have := canadianConf_lb t
    simp only []
    linarith

lemma classifyEnglish_eq_take (t : List Char) :
    classifyEnglishByKeywords t
      = (List.insertionSort confGE (englishCandidates t)).take 3 := by
  rw [classifyEnglishByKeywords, english_filter_all]

lemma classifyEnglish_length (t : List Char) :
    (classifyEnglishByKeywords t).length = 3 := by
  rw [classifyEnglish_eq_take, List.length_take, List.length_insertionSort]
  simp [englishCandidates]

lemma mem_classifyEnglish {t : List Char} {r : ClassificationResult}
    (h : r ∈ classifyEnglishByKeywords t) : r ∈ englishCandidates t := by
  rw [classifyEnglish_eq_take] at h
  exact (List.mem_insertionSort confGE).mp ((List.take_sublist _ _).subset h)

lemma englishCandidates_conf {t : List Char} {r : ClassificationResult}
    (h : r ∈ englishCandidates t) : 1/10 ≤ r.confidence ∧ r.confidence ≤ 7/2 := by
  simp only [englishCandidates, List.mem_cons, List.not_mem_nil, or_false] at h
  rcases h with rfl | rfl | rfl | rfl
  · exact ⟨by have := americanScore_lb t; simp only []; linarith, americanScore_ub t⟩
  · exact ⟨by have := britishConf_lb t; simp only []; linarith, britishConf_ub t⟩
  · exact ⟨australianConf_lb t, australianConf_ub t⟩
  · exact ⟨canadianConf_lb t, canadianConf_ub t⟩

/-! ### Sortedness and stability of the descending sort -/

lemma classifyArabic_pairwise (t : List Char) :
    (classifyArabicByKeywords t).Pairwise confGE := by
  rw [classifyArabicByKeywords]
  split_ifs with he
  · simp
  · exact List.sorted_insertionSort confGE (arabicCandidates t)

lemma classifyEnglish_pairwise (t : List Char) :
    (classifyEnglishByKeywords t).Pairwise confGE := by
  rw [classifyEnglish_eq_take]
  exact (List.sorted_insertionSort confGE (englishCandidates t)).sublist
    (List.take_sublist _ _)

/-- Filtering for one confidence level commutes with a single ordered
insertion: elements skipped over by the insertion are strictly greater, so
they never share the inserted element's confidence. -/
lemma filterConf_orderedInsert (c : ℚ) (a : ClassificationResult) :
    ∀ l : List ClassificationResult,
      (List.orderedInsert confGE a l).filter (fun r => decide (r.confidence = c))
        = (a :: l).filter (fun r => decide (r.confidence = c)) := by
  intro l
  induction l with
  | nil => rfl
  | cons b bs ih =>
    by_cases h : confGE a b
    · rw [List.orderedInsert, if_pos h]
    · rw [List.orderedInsert, if_neg h]
      have hlt : a.confidence < b.confidence := not_le.mp h
      by_cases hac : a.confidence = c
      · have hbc : ¬ b.confidence = c := by
          rw [← hac]
          exact ne_of_gt hlt
        simp [List.filter_cons, hac, hbc, ih]
      · simp [List.filter_cons, hac, ih]

/-- Stability of the descending insertion sort: within one confidence level
the sorted list keeps the original order. -/
lemma filterConf_insertionSort (c : ℚ) :
    ∀ l : List ClassificationResult,
      (List.insertionSort confGE l).filter (fun r => decide (r.confidence = c))
        = l.filter (fun r => decide (r.confidence = c)) := by
  intro l
  induction l with
  | nil => rfl
  | cons b bs ih =>
    rw [List.insertionSort, filterConf_orderedInsert]
    simp only [List.filter_cons]
    rw [ih]

lemma classifyArabic_stable (t : List Char) (h : 0 < (arabicCandidates t).length)
    (c : ℚ) :
    (classifyArabicByKeywords t).filter (fun r => decide (r.confidence = c))
      = (arabicCandidates t).filter (fun r => decide (r.confidence = c)) := by
  rw [classifyArabicByKeywords]
  split_ifs with he
  · exfalso
    rw [List.isEmpty_iff] at he
    have : (arabicCandidates t).length = 0 := by
      have := List.length_insertionSort confGE (arabicCandidates t)
      rw [he] at this
      simpa using this.symm
    omega
  · exact filterConf_insertionSort c (arabicCandidates t)

lemma classifyEnglish_stable (t : List Char) (c : ℚ) :
    List.Sublist
      ((classifyEnglishByKeywords t).filter (fun r => decide (r.confidence = c)))
      ((englishCandidates t).filter (fun r => decide (r.confidence = c))) := by
  rw [classifyEnglish_eq_take]
  have h1 := ((List.take_sublist 3 (List.insertionSort confGE
    (englishCandidates t)))).filter (fun r => decide (r.confidence = c))
  rw [filterConf_insertionSort c (englishCandidates t)] at h1
  exact h1

/-! ### Position of an inserted element under truncation -/

/-- If at most `k` elements of `s` have strictly greater confidence than `a`,
then inserting `a` into `s` leaves `a` within the first `k + 1` positions. -/
lemma mem_take_orderedInsert (a : ClassificationResult) :
    ∀ (s : List ClassificationResult) (k : ℕ),
      s.countP (fun b => decide (a.confidence < b.confidence)) ≤ k →
      a ∈ (List.orderedInsert confGE a s).take (k + 1) := by
  intro s
  induction s with
  | nil =>
    intro k hk
    simp
  | cons b bs ih =>
    intro k hk
    by_cases h : confGE a b
    · rw [List.orderedInsert, if_pos h, List.take_succ_cons]
      exact List.mem_cons_self _ _
    · have hlt : a.confidence < b.confidence := not_le.mp h
      rw [List.orderedInsert, if_neg h]
      rw [List.countP_cons] at hk
      simp only [hlt, decide_eq_true_eq, if_pos, decide_True] at hk
      have hk1 : 1 ≤ k := by
        by_contra hke
        omega
      obtain ⟨m, rfl⟩ : ∃ m, k = m + 1 := ⟨k - 1, by omega⟩
      rw [List.take_succ_cons]
      exact List.mem_cons_of_mem b (ih m (by omega))

/-- The American entry survives the final truncation whenever it is not the
case that all three other confidences strictly exceed it. -/
lemma american_mem_classifyEnglish (t : List Char)
    (h : ¬ (americanScore t < britishConf t ∧ americanScore t < australianConf t ∧
      americanScore t < canadianConf t)) :
    "American English" ∈ (classifyEnglishByKeywords t).map (fun r => r.dialect) := by
  rw [classifyEnglish_eq_take]
  have hsort : List.insertionSort confGE (englishCandidates t)
      = List.orderedInsert confGE
          ⟨"American English", americanScore t,
            "Standard American pronunciation and vocabulary"⟩
          (List.insertionSort confGE
            [⟨"British English", britishConf t,
              "Received Pronunciation and British vocabulary"⟩,
             ⟨"Australian English", australianConf t,
              "Distinctive Australian accent and expressions"⟩,
             ⟨"Canadian English", canadianConf t,
              "Canadian pronunciation with some British influences"⟩]) := rfl
  rw [hsort]
  have hperm := List.perm_insertionSort confGE
    [(⟨"British English", britishConf t,
        "Received Pronunciation and British vocabulary"⟩ : ClassificationResult),
     ⟨"Australian English", australianConf t,
      "Distinctive Australian accent and expressions"⟩,
     ⟨"Canadian English", canadianConf t,
      "Canadian pronunciation with some British influences"⟩]
  have hcnt : (List.insertionSort confGE
      [(⟨"British English", britishConf t,
          "Received Pronunciation and British vocabulary"⟩ : ClassificationResult),
       ⟨"Australian English", australianConf t,
        "Distinctive Australian accent and expressions"⟩,
       ⟨"Canadian English", canadianConf t,
        "Canadian pronunciation with some British influences"⟩]).countP
      (fun b => decide (americanScore t < b.confidence)) ≤ 2 := by
    rw [hperm.countP_eq]
    simp only [List.countP_cons, List.countP_nil, decide_eq_true_eq]
    by_cases h1 : americanScore t < britishConf t <;>
      by_cases h2 : americanScore t < australianConf t <;>
        by_cases h3 : americanScore t < canadianConf t <;>
          simp [h1, h2, h3] <;> exact absurd ⟨h1, h2, h3⟩ h
  have hmem := mem_take_orderedInsert
    ⟨"American English", americanScore t,
      "Standard American pronunciation and vocabulary"⟩ _ 2 hcnt
  exact List.mem_map.mpr ⟨_, hmem, rfl⟩

/-! ### Dependence on marker presence only -/

lemma countP_agree {p q : List Char → Bool} :
    ∀ {ws : List (List Char)}, (∀ w ∈ ws, p w = q w) → ws.countP p = ws.countP q := by
  intro ws
  induction ws with
  | nil => intro _; rfl
  | cons w ws ih =>
    intro h
    rw [List.countP_cons, List.countP_cons, h w (List.mem_cons_self _ _),
      ih (fun u hu => h u (List.mem_cons_of_mem _ hu))]

lemma countP_zero_of_absent {t : List Char} {ws : List (List Char)}
    (h : ∀ w ∈ ws, charsContain t w = false) :
    ws.countP (fun w => charsContain t w) = 0 := by
  rw [List.countP_eq_zero]
  intro w hw
  simp [h w hw]

lemma arabicScore_agree {t1 t2 : List Char}
    (h : ∀ w ∈ allArabicWords, charsContain t1 w = charsContain t2 w)
    {ws : List (List Char)} (hsub : ∀ w ∈ ws, w ∈ allArabicWords) :
    arabicScore t1 ws = arabicScore t2 ws := by
  rw [arabicScore_eq, arabicScore_eq,
    countP_agree (fun w hw => h w (hsub w hw))]

lemma englishScore_agree {t1 t2 : List Char} (base : ℚ)
    (h : ∀ w ∈ allEnglishWords,
      charsContain (toLowerList t1) (toLowerList w)
        = charsContain (toLowerList t2) (toLowerList w))
    {ws : List (List Char)} (hsub : ∀ w ∈ ws, w ∈ allEnglishWords) :
    englishScore (toLowerList t1) ws base = englishScore (toLowerList t2) ws base := by
  rw [englishScore_eq, englishScore_eq,
    countP_agree (fun w hw => h w (hsub w hw))]

lemma classifyArabic_agree {t1 t2 : List Char}
    (h : ∀ w ∈ allArabicWords, charsContain t1 w = charsContain t2 w) :
    classifyArabicByKeywords t1 = classifyArabicByKeywords t2 := by
  have hmem : ∀ ws : List (List Char), ws = egyptianWords ∨ ws = levantineWords ∨
      ws = gulfWords ∨ ws = maghrebiWords → ∀ w ∈ ws, w ∈ allArabicWords := by
    intro ws hws w hw
    simp only [allArabicWords, List.mem_append]
    rcases hws with rfl | rfl | rfl | rfl <;> tauto
  have h1 := arabicScore_agree h (hmem egyptianWords (by tauto))
  have h2 := arabicScore_agree h (hmem levantineWords (by tauto))
  have h3 := arabicScore_agree h (hmem gulfWords (by tauto))
  have h4 := arabicScore_agree h (hmem maghrebiWords (by tauto))
  have hcand : arabicCandidates t1 = arabicCandidates t2 := by
    rw [arabicCandidates, arabicCandidates]
    simp only [arabicKeywords, List.map_cons, List.map_nil, h1, h2, h3, h4]
  rw [classifyArabicByKeywords, classifyArabicByKeywords, hcand]

lemma classifyEnglish_agree {t1 t2 : List Char}
    (h : ∀ w ∈ allEnglishWords,
      charsContain (toLowerList t1) (toLowerList w)
        = charsContain (toLowerList t2) (toLowerList w)) :
    classifyEnglishByKeywords t1 = classifyEnglishByKeywords t2 := by
  have hmem : ∀ ws : List (List Char), ws = americanWords ∨ ws = britishWords ∨
      ws = australianWords ∨ ws = canadianWords → ∀ w ∈ ws, w ∈ allEnglishWords := by
    intro ws hws w hw
    simp only [allEnglishWords, List.mem_append]
    rcases hws with rfl | rfl | rfl | rfl <;> tauto
  have ham : americanScore t1 = americanScore t2 :=
    englishScore_agree (3/10) h (hmem americanWords (by tauto))
  have hbrs : britishScore t1 = britishScore t2 :=
    englishScore_agree 0 h (hmem britishWords (by tauto))
  have haus : australianScore t1 = australianScore t2 :=
    englishScore_agree 0 h (hmem australianWords (by tauto))
  have hcas : canadianScore t1 = canadianScore t2 :=
    englishScore_agree 0 h (hmem canadianWords (by tauto))
  have hb : britishConf t1 = britishConf t2 := by rw [britishConf, britishConf, hbrs]
  have hu : australianConf t1 = australianConf t2 := by
    rw [australianConf, australianConf, haus]
  have hc : canadianConf t1 = canadianConf t2 := by rw [canadianConf, canadianConf, hcas]
  have hcand : englishCandidates t1 = englishCandidates t2 := by
    rw [englishCandidates, englishCandidates, ham, hb, hu, hc]
  rw [classifyEnglishByKeywords, classifyEnglishByKeywords, hcand]

/-! ### Symbolic evaluation of the Arabic pipeline -/

lemma arabicCandidates_eval {t : List Char} {se sl sg sm : ℚ}
    (he : arabicScore t egyptianWords = se) (hl : arabicScore t levantineWords = sl)
    (hg : arabicScore t gulfWords = sg) (hm : arabicScore t maghrebiWords = sm) :
    arabicCandidates t
      = (([(("egyptian" : String), se), ("levantine", sl), ("gulf", sg),
          ("maghrebi", sm)].filter (fun p => decide ((0 : ℚ) < p.2))).map
          (fun p => ⟨arabicName p.1, min p.2 (9/10), arabicDescription p.1⟩)) := by
  rw [arabicCandidates]
  simp only [arabicKeywords, List.map_cons, List.map_nil, he, hl, hg, hm]

lemma arabicName_egyptian : arabicName "egyptian" = "Egyptian Arabic" := by
  simp [arabicName, arabicInfoTable]

lemma arabicDescription_egyptian :
    arabicDescription "egyptian"
      = "Common in Egypt and widely understood across the Arab world" := by
  simp [arabicDescription, arabicInfoTable]

lemma arabicCandidates_egyptianOnly {t : List Char}
    (he : arabicScore t egyptianWords = 3/10) (hl : arabicScore t levantineWords = 0)
    (hg : arabicScore t gulfWords = 0) (hm : arabicScore t maghrebiWords = 0) :
    arabicCandidates t
      = [⟨"Egyptian Arabic", 3/10,
          "Common in Egypt and widely understood across the Arab world"⟩] := by
  rw [arabicCandidates_eval he hl hg hm]
  norm_num [List.filter_cons, List.filter_nil, arabicName_egyptian,
    arabicDescription_egyptian, min_def]

lemma arabicCandidates_empty {t : List Char}
    (he : arabicScore t egyptianWords = 0) (hl : arabicScore t levantineWords = 0)
    (hg : arabicScore t gulfWords = 0) (hm : arabicScore t maghrebiWords = 0) :
    arabicCandidates t = [] := by
  rw [arabicCandidates_eval he hl hg hm]
  norm_num [List.filter_cons, List.filter_nil]

lemma classifyArabic_of_singleton {t : List Char} {r : ClassificationResult}
    (h : arabicCandidates t = [r]) : classifyArabicByKeywords t = [r] := by
  rw [classifyArabicByKeywords, h]
  simp [List.insertionSort]

lemma classifyArabic_of_nil {t : List Char} (h : arabicCandidates t = []) :
    classifyArabicByKeywords t = [msaFallback] := by
  rw [classifyArabicByKeywords, h]
  simp [List.insertionSort]

/-! ### Marker counting under the hypotheses of the concrete scenarios -/

lemma arabicScores_of_no_markers {t : List Char}
    (h : ∀ w ∈ allArabicWords, charsContain t w = false) :
    arabicScore t egyptianWords = 0 ∧ arabicScore t levantineWords = 0 ∧
      arabicScore t gulfWords = 0 ∧ arabicScore t maghrebiWords = 0 := by
  have hmem : ∀ ws : List (List Char), ws = egyptianWords ∨ ws = levantineWords ∨
      ws = gulfWords ∨ ws = maghrebiWords → ∀ w ∈ ws, w ∈ allArabicWords := by
    intro ws hws w hw
    simp only [allArabicWords, List.mem_append]
    rcases hws with rfl | rfl | rfl | rfl <;> tauto
  refine ⟨?_, ?_, ?_, ?_⟩ <;>
    rw [arabicScore_eq,
      countP_zero_of_absent (fun w hw => h w (hmem _ (by tauto) w hw))] <;>
    norm_num

lemma arabicScores_of_eih_only {t : List Char}
    (h1 : charsContain t ("إيه".toList) = true)
    (h2 : ∀ w ∈ allArabicWords, w ≠ "إيه".toList → charsContain t w = false) :
    arabicScore t egyptianWords = 3/10 ∧ arabicScore t levantineWords = 0 ∧
      arabicScore t gulfWords = 0 ∧ arabicScore t maghrebiWords = 0 := by
  have hmem : ∀ ws : List (List Char), ws = egyptianWords ∨ ws = levantineWords ∨
      ws = gulfWords ∨ ws = maghrebiWords → ∀ w ∈ ws, w ∈ allArabicWords := by
    intro ws hws w hw
    simp only [allArabicWords, List.mem_append]
    rcases hws with rfl | rfl | rfl | rfl <;> tauto
  refine ⟨?_, ?_, ?_, ?_⟩
  · have hShape : egyptianWords = "إيه".toList ::
        ["إزيك".toList, "إزايك".toList, "يلا".toList, "كدة".toList,
         "أصل".toList, "علشان".toList] := rfl
    have hrest0 : (["إزيك".toList, "إزايك".toList, "يلا".toList, "كدة".toList,
        "أصل".toList, "علشان".toList] : List (List Char)).countP
          (fun w => charsContain t w) = 0 := by
      apply countP_zero_of_absent
      intro w hw
      refine h2 w (hmem egyptianWords (by tauto) w ?_) ?_
      · rw [hShape]
        exact List.mem_cons_of_mem _ hw
      · have hne : ∀ u ∈ (["إزيك".toList, "إزايك".toList, "يلا".toList,
            "كدة".toList, "أصل".toList, "علشان".toList] : List (List Char)),
            u ≠ "إيه".toList := by decide
        exact hne w hw
    rw [arabicScore_eq, hShape, List.countP_cons, hrest0, h1]
    norm_num
  · have hne : ∀ u ∈ levantineWords, u ≠ "إيه".toList := by decide
    rw [arabicScore_eq, countP_zero_of_absent
      (fun w hw => h2 w (hmem levantineWords (by tauto) w hw) (hne w hw))]
    norm_num
  · have hne : ∀ u ∈ gulfWords, u ≠ "إيه".toList := by decide
    rw [arabicScore_eq, countP_zero_of_absent
      (fun w hw => h2 w (hmem gulfWords (by tauto) w hw) (hne w hw))]
    norm_num
  · have hne : ∀ u ∈ maghrebiWords, u ≠ "إيه".toList := by decide
    rw [arabicScore_eq, countP_zero_of_absent
      (fun w hw => h2 w (hmem maghrebiWords (by tauto) w hw) (hne w hw))]
    norm_num

/-! ### Symbolic evaluation of the English pipeline -/

lemma americanScore_of_count {t : List Char} {k : ℕ}
    (h : americanWords.countP
      (fun w => charsContain (toLowerList t) (toLowerList w)) = k) :
    americanScore t = 3/10 + 2/5 * k := by
  rw [americanScore, englishScore_eq, h]

lemma britishScore_of_count {t : List Char} {k : ℕ}
    (h : britishWords.countP
      (fun w => charsContain (toLowerList t) (toLowerList w)) = k) :
    britishScore t = 2/5 * k := by
  rw [britishScore, englishScore_eq, h]
  norm_num

lemma australianScore_of_count {t : List Char} {k : ℕ}
    (h : australianWords.countP
      (fun w => charsContain (toLowerList t) (toLowerList w)) = k) :
    australianScore t = 2/5 * k := by
  rw [australianScore, englishScore_eq, h]
  norm_num

lemma canadianScore_of_count {t : List Char} {k : ℕ}
    (h : canadianWords.countP
      (fun w => charsContain (toLowerList t) (toLowerList w)) = k) :
    canadianScore t = 2/5 * k := by
  rw [canadianScore, englishScore_eq, h]
  norm_num

lemma classifyEnglish_eval {t : List Char} {a b u c : ℚ}
    (ha : americanScore t = a) (hb : britishConf t = b)
    (hu : australianConf t = u) (hc : canadianConf t = c) :
    classifyEnglishByKeywords t = (List.insertionSort confGE
      [⟨"American English", a, "Standard American pronunciation and vocabulary"⟩,
       ⟨"British English", b, "Received Pronunciation and British vocabulary"⟩,
       ⟨"Australian English", u, "Distinctive Australian accent and expressions"⟩,
       ⟨"Canadian English", c,
        "Canadian pronunciation with some British influences"⟩]).take 3 := by
  rw [classifyEnglish_eq_take, englishCandidates, ha, hb, hu, hc]

lemma classifyEnglish_colorTheater :
    classifyEnglishByKeywords ("color theater".toList)
      = [⟨"American English", 11/10, "Standard American pronunciation and vocabulary"⟩,
         ⟨"British English", 1/5, "Received Pronunciation and British vocabulary"⟩,
         ⟨"Australian English", 1/10, "Distinctive Australian accent and expressions"⟩] := by
  have hka : americanWords.countP (fun w =>
      charsContain (toLowerList ("color theater".toList)) (toLowerList w)) = 2 := by
    decide
  have hkb : britishWords.countP (fun w =>
      charsContain (toLowerList ("color theater".toList)) (toLowerList w)) = 0 := by
    decide
  have hku : australianWords.countP (fun w =>
      charsContain (toLowerList ("color theater".toList)) (toLowerList w)) = 0 := by
    decide
  have hkc : canadianWords.countP (fun w =>
      charsContain (toLowerList ("color theater".toList)) (toLowerList w)) = 0 := by
    decide
  have ha : americanScore ("color theater".toList) = 11/10 := by
    rw [americanScore_of_count hka]
    norm_num
  have hbs : britishScore ("color theater".toList) = 0 := by
    rw [britishScore_of_count hkb]
    norm_num
  have hus : australianScore ("color theater".toList) = 0 := by
    rw [australianScore_of_count hku]
    norm_num
  have hcs : canadianScore ("color theater".toList) = 0 := by
    rw [canadianScore_of_count hkc]
    norm_num
  have hb : britishConf ("color theater".toList) = 1/5 := by
    rw [britishConf, if_pos hbs]
  have hu : australianConf ("color theater".toList) = 1/10 := by
    rw [australianConf, if_pos hus]
  have hc : canadianConf ("color theater".toList) = 1/10 := by
    rw [canadianConf, if_pos hcs]
  rw [classifyEnglish_eval ha hb hu hc]
  norm_num [List.insertionSort, List.orderedInsert, confGE, List.take]

lemma classifyEnglish_lorryMateEh :
    classifyEnglishByKeywords ("lorry mate eh".toList)
      = [⟨"British English", 2/5, "Received Pronunciation and British vocabulary"⟩,
         ⟨"Australian English", 2/5, "Distinctive Australian accent and expressions"⟩,
         ⟨"Canadian English", 2/5,
          "Canadian pronunciation with some British influences"⟩] := by
  have hka : americanWords.countP (fun w =>
      charsContain (toLowerList ("lorry mate eh".toList)) (toLowerList w)) = 0 := by
    decide
  have hkb : britishWords.countP (fun w =>
      charsContain (toLowerList ("lorry mate eh".toList)) (toLowerList w)) = 1 := by
    decide
  have hku : australianWords.countP (fun w =>
      charsContain (toLowerList ("lorry mate eh".toList)) (toLowerList w)) = 1 := by
    decide
  have hkc : canadianWords.countP (fun w =>
      charsContain (toLowerList ("lorry mate eh".toList)) (toLowerList w)) = 1 := by
    decide
  have ha : americanScore ("lorry mate eh".toList) = 3/10 := by
    rw [americanScore_of_count hka]
    norm_num
  have hbs : britishScore ("lorry mate eh".toList) = 2/5 := by
    rw [britishScore_of_count hkb]
    norm_num
  have hus : australianScore ("lorry mate eh".toList) = 2/5 := by
    rw [australianScore_of_count hku]
    norm_num
  have hcs : canadianScore ("lorry mate eh".toList) = 2/5 := by
    rw [canadianScore_of_count hkc]
    norm_num
  have hb : britishConf ("lorry mate eh".toList) = 2/5 := by
    rw [britishConf, hbs]
    norm_num
  have hu : australianConf ("lorry mate eh".toList) = 2/5 := by
    rw [australianConf, hus]
    norm_num
  have hc : canadianConf ("lorry mate eh".toList) = 2/5 := by
    rw [canadianConf, hcs]
    norm_num
  rw [classifyEnglish_eval ha hb hu hc]
  norm_num [List.insertionSort, List.orderedInsert, confGE, List.take]

lemma classifyEnglish_petrolStation :
    classifyEnglishByKeywords ("I love my lorry and the petrol station".toList)
      = [⟨"British English", 4/5, "Received Pronunciation and British vocabulary"⟩,
         ⟨"American English", 3/10, "Standard American pronunciation and vocabulary"⟩,
         ⟨"Australian English", 1/10,
          "Distinctive Australian accent and expressions"⟩] := by
  have hka : americanWords.countP (fun w =>
      charsContain (toLowerList ("I love my lorry and the petrol station".toList))
        (toLowerList w)) = 0 := by
    decide
  have hkb : britishWords.countP (fun w =>
      charsContain (toLowerList ("I love my lorry and the petrol station".toList))
        (toLowerList w)) = 2 := by
    decide
  have hku : australianWords.countP (fun w =>
      charsContain (toLowerList ("I love my lorry and the petrol station".toList))
        (toLowerList w)) = 0 := by
    decide
  have hkc : canadianWords.countP (fun w =>
      charsContain (toLowerList ("I love my lorry and the petrol station".toList))
        (toLowerList w)) = 0 := by
    decide
  have ha : americanScore ("I love my lorry and the petrol station".toList) = 3/10 := by
    rw [americanScore_of_count hka]
    norm_num
  have hbs : britishScore ("I love my lorry and the petrol station".toList) = 4/5 := by
    rw [britishScore_of_count hkb]
    norm_num
  have hus : australianScore ("I love my lorry and the petrol station".toList) = 0 := by
    rw [australianScore_of_count hku]
    norm_num
  have hcs : canadianScore ("I love my lorry and the petrol station".toList) = 0 := by
    rw [canadianScore_of_count hkc]
    norm_num
  have hb : britishConf ("I love my lorry and the petrol station".toList) = 4/5 := by
    rw [britishConf, hbs]
    norm_num
  have hu : australianConf ("I love my lorry and the petrol station".toList) = 1/10 := by
    rw [australianConf, if_pos hus]
  have hc : canadianConf ("I love my lorry and the petrol station".toList) = 1/10 := by
    rw [canadianConf, if_pos hcs]
  rw [classifyEnglish_eval ha hb hu hc]
  norm_num [List.insertionSort, List.orderedInsert, confGE, List.take]

lemma englishConfs_nil :
    americanScore [] = 3/10 ∧ britishConf [] = 1/5 ∧
      australianConf [] = 1/10 ∧ canadianConf [] = 1/10 := by
  have hka : americanWords.countP (fun w =>
      charsContain (toLowerList []) (toLowerList w)) = 0 := by decide
  have hkb : britishWords.countP (fun w =>
      charsContain (toLowerList []) (toLowerList w)) = 0 := by decide
  have hku : australianWords.countP (fun w =>
      charsContain (toLowerList []) (toLowerList w)) = 0 := by decide
  have hkc : canadianWords.countP (fun w =>
      charsContain (toLowerList []) (toLowerList w)) = 0 := by decide
  have hbs : britishScore [] = 0 := by
    rw [britishScore_of_count hkb]
    norm_num
  have hus : australianScore [] = 0 := by
    rw [australianScore_of_count hku]
    norm_num
  have hcs : canadianScore [] = 0 := by
    rw [canadianScore_of_count hkc]
    norm_num
  refine ⟨?_, ?_, ?_, ?_⟩
  · rw [americanScore_of_count hka]
    norm_num
  · rw [britishConf, if_pos hbs]
  · rw [australianConf, if_pos hus]
  · rw [canadianConf, if_pos hcs]

lemma arabicCandidates_eih :
    arabicCandidates ("إيه".toList)
      = [⟨"Egyptian Arabic", 3/10,
          "Common in Egypt and widely understood across the Arab world"⟩] := by
  have hk1 : egyptianWords.countP (fun w => charsContain ("إيه".toList) w) = 1 := by
    decide
  have hk2 : levantineWords.countP (fun w => charsContain ("إيه".toList) w) = 0 := by
    decide
  have hk3 : gulfWords.countP (fun w => charsContain ("إيه".toList) w) = 0 := by
    decide
  have hk4 : maghrebiWords.countP (fun w => charsContain ("إيه".toList) w) = 0 := by
    decide
  exact arabicCandidates_egyptianOnly
    (by rw [arabicScore_eq, hk1]; norm_num)
    (by rw [arabicScore_eq, hk2]; norm_num)
    (by rw [arabicScore_eq, hk3]; norm_num)
    (by rw [arabicScore_eq, hk4]; norm_num)

lemma classifyArabic_eih :
    classifyArabicByKeywords ("إيه".toList)
      = [⟨"Egyptian Arabic", 3/10,
          "Common in Egypt and widely understood across the Arab world"⟩] :=
  classifyArabic_of_singleton arabicCandidates_eih

/-! ### Claims -/

/-- C1, counterexample: on the English input "color theater" the top result
has confidence 1.1, strictly above 1 — the English pipeline applies no cap,
so confidences are not bounded by 1 as the claim states. -/
theorem C1_counterexample :
    ((classifyEnglishByKeywords ("color theater".toList)).map (fun r => r.confidence))
      = [11/10, 1/5, 1/10] ∧ (1 : ℚ) < 11/10 := by
  constructor
  · rw [classifyEnglish_colorTheater]
    rfl
  · norm_num

/-- C1 (amended): for every input text, every result of the Arabic keyword
classifier has confidence in `[0, 1]` (indeed at most 0.9), while every
result of the English keyword classifier has confidence in `[0, 3.5]` —
the English pipeline has no cap at 1, and 3.5 = 0.3 + 8 × 0.4 is the
largest reachable value. -/
theorem C1_thm (t : List Char) :
    (∀ r ∈ classifyArabicByKeywords t, 0 ≤ r.confidence ∧ r.confidence ≤ 1) ∧
    (∀ r ∈ classifyEnglishByKeywords t, 0 ≤ r.confidence ∧ r.confidence ≤ 7/2) := by
  constructor
  · intro r hr
    rcases mem_classifyArabic hr with rfl | hc
    · constructor <;> norm_num [msaFallback]
    · have h := arabicCandidates_conf hc
      constructor <;> linarith [h.1, h.2]
  · intro r hr
    have h := englishCandidates_conf (mem_classifyEnglish hr)
    constructor <;> linarith [h.1, h.2]

/-- C1, witness: the amended bounds instantiated on concrete runs. -/
theorem C1_witness :
    ((0 : ℚ) ≤ 3/10 ∧ (3/10 : ℚ) ≤ 1) ∧ ((0 : ℚ) ≤ 11/10 ∧ (11/10 : ℚ) ≤ 7/2) :=
  ⟨(C1_thm ("إيه".toList)).1
      ⟨"Egyptian Arabic", 3/10,
        "Common in Egypt and widely understood across the Arab world"⟩
      (by rw [classifyArabic_eih]; exact List.mem_cons_self _ _),
   (C1_thm ("color theater".toList)).2
      ⟨"American English", 11/10, "Standard American pronunciation and vocabulary"⟩
      (by rw [classifyEnglish_colorTheater]; exact List.mem_cons_self _ _)⟩

/-- C2, counterexample: on "lorry mate eh" all of British, Australian and
Canadian score 0.4 while American keeps its 0.3 baseline, so the stable
descending sort puts American fourth and the final `slice(0, 3)` removes it:
the output dialects are exactly British, Australian, Canadian — no
"American English" entry. -/
theorem C2_counterexample :
    ((classifyEnglishByKeywords ("lorry mate eh".toList)).map (fun r => r.dialect))
      = ["British English", "Australian English", "Canadian English"] ∧
    (["British English", "Australian English", "Canadian English"].count
      "American English") = 0 := by
  constructor
  · rw [classifyEnglish_lorryMateEh]
    rfl
  · rfl

/-- C2 (amended): for every input text the English keyword classifier
returns at most 3 results, and the output contains an entry with dialect
"American English" unless the British, Australian and Canadian confidences
all strictly exceed the American score (only then is the American entry
truncated away by `slice(0, 3)`). -/
theorem C2_thm (t : List Char) :
    (classifyEnglishByKeywords t).length ≤ 3 ∧
    (¬ (americanScore t < britishConf t ∧ americanScore t < australianConf t ∧
        americanScore t < canadianConf t) →
      "American English" ∈ (classifyEnglishByKeywords t).map (fun r => r.dialect)) :=
  ⟨(classifyEnglish_length t).le, american_mem_classifyEnglish t⟩

/-- C2, witness: on the empty text the American baseline 0.3 beats all
defaults, so American English is present. -/
theorem C2_witness :
    (classifyEnglishByKeywords []).length ≤ 3 ∧
      "American English" ∈ ((classifyEnglishByKeywords []).map (fun r => r.dialect)) := by
  refine ⟨(C2_thm []).1, (C2_thm []).2 ?_⟩
  obtain ⟨ha, hb, hu, hc⟩ := englishConfs_nil
  rw [ha, hb, hu, hc]
  norm_num

/-- C3, counterexample: on the input "إيه" itself the top (only) result is
Egyptian Arabic with confidence 0.3, not 0.6 — every Arabic marker match
adds a flat 0.3, there is no position-tiered 0.6 weight in the code. -/
theorem C3_counterexample :
    ((classifyArabicByKeywords ("إيه".toList)).map (fun r => (r.dialect, r.confidence)))
      = [("Egyptian Arabic", 3/10)] ∧ (3/10 : ℚ) < 3/5 := by
  constructor
  · rw [classifyArabic_eih]
    rfl
  · norm_num

/-- C3 (amended): for every Arabic input text containing the marker "إيه"
and no other dictionary marker, the classifier returns exactly one result,
Egyptian Arabic with confidence 0.3 (the flat per-match weight). -/
theorem C3_thm (t : List Char)
    (h1 : charsContain t ("إيه".toList) = true)
    (h2 : ∀ w ∈ allArabicWords, w ≠ "إيه".toList → charsContain t w = false) :
    classifyArabicByKeywords t
      = [⟨"Egyptian Arabic", 3/10,
          "Common in Egypt and widely understood across the Arab world"⟩] := by
  obtain ⟨he, hl, hg, hm⟩ := arabicScores_of_eih_only h1 h2
  exact classifyArabic_of_singleton (arabicCandidates_egyptianOnly he hl hg hm)

/-- C3, witness: the amended statement instantiated at the input "إيه". -/
theorem C3_witness :
    classifyArabicByKeywords ("إيه".toList)
      = [⟨"Egyptian Arabic", 3/10,
          "Common in Egypt and widely understood across the Arab world"⟩] :=
  C3_thm ("إيه".toList) (by decide) (by decide)

/-- C4: for every input text, every result of the Arabic keyword classifier
has confidence at most 0.9 — matched candidates are clamped by
`Math.min(score, 0.9)` and the fallback has confidence 0.5. -/
theorem C4_thm (t : List Char) :
    ∀ r ∈ classifyArabicByKeywords t, r.confidence ≤ 9/10 := by
  intro r hr
  rcases mem_classifyArabic hr with rfl | hc
  · norm_num [msaFallback]
  · exact (arabicCandidates_conf hc).2

/-- C4, witness: the 0.9 bound instantiated on a concrete Arabic run. -/
theorem C4_witness : (3/10 : ℚ) ≤ 9/10 :=
  C4_thm ("إيه".toList)
    ⟨"Egyptian Arabic", 3/10,
      "Common in Egypt and widely understood across the Arab world"⟩
    (by rw [classifyArabic_eih]; exact List.mem_cons_self _ _)

/-- C5: for every input text containing none of the Arabic dictionary
markers, the Arabic keyword classifier returns exactly the single Modern
Standard Arabic fallback result with confidence 0.5. -/
theorem C5_thm (t : List Char)
    (h : ∀ w ∈ allArabicWords, charsContain t w = false) :
    classifyArabicByKeywords t
      = [⟨"Modern Standard Arabic", 1/2, "Default classification - formal Arabic"⟩] := by
  obtain ⟨he, hl, hg, hm⟩ := arabicScores_of_no_markers h
  exact classifyArabic_of_nil (arabicCandidates_empty he hl hg hm)

/-- C5, witness: the fallback on the spec's concrete marker-free input. -/
theorem C5_witness :
    classifyArabicByKeywords ("this has no arabic markers".toList)
      = [⟨"Modern Standard Arabic", 1/2, "Default classification - formal Arabic"⟩] :=
  C5_thm ("this has no arabic markers".toList) (by decide)

/-- C6: for every input text and both languages the keyword classifier
returns a non-empty result list: the Arabic pipeline falls back to the
Modern Standard Arabic result, and the English pipeline always returns
three results. -/
theorem C6_thm (t : List Char) :
    0 < (classifyArabicByKeywords t).length ∧
      0 < (classifyEnglishByKeywords t).length :=
  ⟨classifyArabic_ne_nil t, by rw [classifyEnglish_length]; norm_num⟩

/-- C7: both classifiers return lists sorted in non-increasing confidence
order, and the sort is stable: within any one confidence level, the English
output preserves the original candidate order (as a sublist, because of the
final truncation), and the Arabic output preserves it exactly whenever any
candidate matched. -/
theorem C7_thm (t : List Char) :
    (classifyArabicByKeywords t).Pairwise confGE ∧
    (classifyEnglishByKeywords t).Pairwise confGE ∧
    (∀ c : ℚ, List.Sublist
      ((classifyEnglishByKeywords t).filter (fun r => decide (r.confidence = c)))
      ((englishCandidates t).filter (fun r => decide (r.confidence = c)))) ∧
    (0 < (arabicCandidates t).length →
      ∀ c : ℚ,
        (classifyArabicByKeywords t).filter (fun r => decide (r.confidence = c))
          = (arabicCandidates t).filter (fun r => decide (r.confidence = c))) :=
  ⟨classifyArabic_pairwise t, classifyEnglish_pairwise t,
   fun c => classifyEnglish_stable t c, fun h c => classifyArabic_stable t h c⟩

/-- C7, witness: the Arabic stability equation instantiated at "إيه" with
confidence level 0.3. -/
theorem C7_witness :
    (classifyArabicByKeywords ("إيه".toList)).filter
        (fun r => decide (r.confidence = 3/10))
      = (arabicCandidates ("إيه".toList)).filter
        (fun r => decide (r.confidence = 3/10)) :=
  (C7_thm ("إيه".toList)).2.2.2 (by rw [arabicCandidates_eih]; norm_num) (3/10)

/-- C8: on the input "I love my lorry and the petrol station" the English
keyword classifier returns exactly three results: British English at 0.8,
American English at the 0.3 baseline, and the default-substituted Australian
English entry at 0.1. -/
theorem C8_thm :
    classifyEnglishByKeywords ("I love my lorry and the petrol station".toList)
      = [⟨"British English", 4/5, "Received Pronunciation and British vocabulary"⟩,
         ⟨"American English", 3/10, "Standard American pronunciation and vocabulary"⟩,
         ⟨"Australian English", 1/10,
          "Distinctive Australian accent and expressions"⟩] :=
  classifyEnglish_petrolStation

/-- C9: each classifier depends only on which dictionary markers occur in
the text (after lowercasing, for English): two texts matching exactly the
same markers produce identical outputs, regardless of repetition. -/
theorem C9_thm (t1 t2 : List Char) :
    ((∀ w ∈ allArabicWords, charsContain t1 w = charsContain t2 w) →
      classifyArabicByKeywords t1 = classifyArabicByKeywords t2) ∧
    ((∀ w ∈ allEnglishWords,
        charsContain (toLowerList t1) (toLowerList w)
          = charsContain (toLowerList t2) (toLowerList w)) →
      classifyEnglishByKeywords t1 = classifyEnglishByKeywords t2) :=
  ⟨fun h => classifyArabic_agree h, fun h => classifyEnglish_agree h⟩

/-- C9, witness: repeating a marker does not change either output. -/
theorem C9_witness :
    classifyArabicByKeywords ("إيه".toList)
        = classifyArabicByKeywords ("إيه إيه".toList) ∧
      classifyEnglishByKeywords ("color".toList)
        = classifyEnglishByKeywords ("COLOR color".toList) :=
  ⟨(C9_thm ("إيه".toList) ("إيه إيه".toList)).1 (by decide),
   (C9_thm ("color".toList) ("COLOR color".toList)).2 (by decide)⟩

/-- C10: for every input text the English keyword classifier returns
exactly 3 results — all four candidates survive the 0.05 filter (American
is at least 0.3, British at least 0.2, Australian and Canadian at least
0.1), so `slice(0, 3)` always keeps precisely three. -/
theorem C10_thm (t : List Char) : (classifyEnglishByKeywords t).length = 3 :=
  classifyEnglish_length t
